import Mathlib

/-!
Shallow embedding of `hive/indexer/blocks.py` (class `Blocks`) from the
ecency/hivemind repository, together with theorems checking the frozen
claims about it.

Modelling conventions:
* Python JSON-like operation payloads become the inductive `PyVal`
  (dicts are insertion-ordered association lists, as in CPython).
* Python dicts used as ordered maps (`ops_stats`, `comment_payout_ops`,
  `vote_ops`) become association lists; updating an existing key keeps
  its position, inserting a fresh key appends at the end, matching
  CPython dict semantics.
* Exceptions (`ValueError` from `int(_, 16)`, `AttributeError` from
  `dict.append`, assertion failures) become `Except String`.  State
  mutations performed before a raise are discarded by the model; no
  claim here draws conclusions from in-memory state on an error path.
* Database effects and calls to the domain sub-processors
  (`Accounts`, `Posts`, `Votes`, `Payments`, `CustomOp`, the flushers)
  are out of scope of the repository slice; they are recorded as an
  event trace (`Ev`), and the sub-processors' returned statistics are
  oracles in `Externals`.  The `hive_blocks` table is a list of rows;
  `COMMIT` appends the staged rows to it.
* Missing dictionary keys (a `KeyError` in Python) are defaulted to an
  empty string by `field`; every claim is settled on well-formed
  payloads where the accessed keys are present.
-/

namespace Hivemind

/-- A Python JSON-like value, as found in operation payloads. -/
inductive PyVal where
  | str (s : String)
  | int (n : Int)
  | bool (b : Bool)
  | list (xs : List PyVal)
  | dict (fields : List (String × PyVal))

/-- Dictionary field lookup, `op['k']`.  A missing key (Python `KeyError`)
is defaulted to `.str ""`; claims are only settled on payloads where the
accessed keys exist. -/
def field (v : PyVal) (k : String) : PyVal :=
  match v with
  | .dict fs => (fs.lookup k).getD (.str "")
  | _ => .str ""

/-- The underlying string of a `PyVal` expected to be a string. -/
def PyVal.asStr : PyVal → String
  | .str s => s
  | _ => ""

/-- One operation record `{type, value}` (also used for virtual ops). -/
structure Operation where
  type : String
  value : PyVal

/-- One transaction: a list of operations. -/
structure Transaction where
  operations : List Operation

/-- A raw block as delivered by the upstream provider. -/
structure Block where
  block_id : String
  previous : String
  timestamp : String
  transactions : List Transaction

/-- A staged/persisted `hive_blocks` row (`Blocks._push` dict). -/
structure BlockRecord where
  num : Nat
  hash : String
  prev : String
  txs : Nat
  ops : Nat
  date : String
deriving Repr, DecidableEq, Inhabited

/-- The mutable class-level state of `Blocks`. -/
structure MemState where
  blocks_to_flush : List BlockRecord
  ops_stats : List (String × Int)
  head_block_date : Option String
deriving Repr, DecidableEq, Inhabited

/-- Value of one hexadecimal digit, as accepted by Python `int(_, 16)`. -/
def hexVal (c : Char) : Option Nat :=
  if 48 ≤ c.toNat ∧ c.toNat ≤ 57 then some (c.toNat - 48)
  else if 97 ≤ c.toNat ∧ c.toNat ≤ 102 then some (c.toNat - 87)
  else if 65 ≤ c.toNat ∧ c.toNat ≤ 70 then some (c.toNat - 55)
  else none

/-- `int(s, base=16)` on a character list: `none` models the `ValueError`
raised on an empty or non-hexadecimal literal. -/
def parseHexNat (cs : List Char) : Option Nat :=
  if cs.isEmpty then none
  else cs.foldl (fun acc c => acc.bind (fun a => (hexVal c).map (fun d => a * 16 + d))) (some 0)

/-- `Blocks._push`: derive `num` from the first 8 hex chars of `block_id`
and append the header row to `blocks_to_flush`. -/
def _push (st : MemState) (block : Block) : Except String (Nat × MemState) :=
  match parseHexNat (block.block_id.data.take 8) with
  | none => .error "ValueError: invalid literal for int() with base 16"
  | some num => .ok (num,
      { st with blocks_to_flush := st.blocks_to_flush ++
          [{ num := num
           , hash := block.block_id
           , prev := block.previous
           , txs := block.transactions.length
           , ops := (block.transactions.map (fun tx => tx.operations.length)).sum
           , date := block.timestamp }] })

/-- `Blocks._flush_blocks`: the single multi-row `INSERT` carries the
staged rows in buffer order; the buffer is then reset to `[]`. -/
def _flush_blocks (st : MemState) : List BlockRecord × MemState :=
  (st.blocks_to_flush, { st with blocks_to_flush := [] })

/-- `Blocks.head_num`: `SELECT num FROM hive_blocks ORDER BY num DESC
LIMIT 1`, with `or 0` for an empty table. -/
def head_num (db : List BlockRecord) : Nat :=
  (db.map (fun r => r.num)).foldr max 0

/-- The body of the `for k, v in od2.items()` loop of
`Blocks.merge_ops_stats`: `od1[k] += v` updates the key in place,
`od1[k] = v` appends a fresh key at the end (CPython dict order). -/
def mergeStatEntry (acc : List (String × Int)) (kv : String × Int) :
    List (String × Int) :=
  if (acc.lookup kv.1).isSome then
    acc.map (fun p => if p.1 = kv.1 then (p.1, p.2 + kv.2) else p)
  else acc ++ [kv]

/-- `Blocks.merge_ops_stats`: fold the entries of `od2` (when not `None`)
into `od1`, adding on existing keys and appending fresh keys. -/
def merge_ops_stats (od1 : List (String × Int)) (od2 : Option (List (String × Int))) :
    List (String × Int) :=
  match od2 with
  | none => od1
  | some m => m.foldl mergeStatEntry od1

/-- The inline `ops_stats` increment of `Blocks._process` (one count per
non-`custom_json` operation type). -/
def opsInc (m : List (String × Int)) (k : String) : List (String × Int) :=
  if (m.lookup k).isSome then
    m.map (fun p => if p.1 = k then (p.1, p.2 + 1) else p)
  else m ++ [(k, 1)]

/-- Effective votes, `vote_ops`: a CPython dict keyed by `author/permlink`. -/
abbrev VoteOps := List (String × PyVal)

/-- `comment_payout_ops`: a CPython dict from `author/permlink` to the
ordered list of `{op_type: val}` entries. -/
abbrev CPOps := List (String × List (String × PyVal))

/-- `comment_payout_ops[key].append entry` / `comment_payout_ops[key] = [entry]`:
append to an existing key in place, or insert the key at the end. -/
def cpAppend (m : CPOps) (k : String) (entry : String × PyVal) : CPOps :=
  if (m.lookup k).isSome then
    m.map (fun p => if p.1 = k then (p.1, p.2 ++ [entry]) else p)
  else m ++ [(k, [entry])]

/-- The `"{}/{}".format(a, p)` key. -/
def fmtKey (a p : PyVal) : String := a.asStr ++ "/" ++ p.asStr

/-- One iteration of the `Blocks.prepare_vops` loop.  The
`effective_comment_vote_operation` branch executes `vote_ops.append(vop)`
on `vote_ops = {}`, a `dict`, which raises `AttributeError` in Python;
the model surfaces that raise as an error. -/
def prepareVopsStep (acc : VoteOps × CPOps) (vop : Operation) :
    Except String (VoteOps × CPOps) :=
  let v := vop.value
  if vop.type = "curation_reward_operation" then
    .ok (acc.1, cpAppend acc.2 (fmtKey (field v "comment_author") (field v "comment_permlink"))
      ("curation_reward_operation", .dict [("reward", field v "reward")]))
  else if vop.type = "author_reward_operation" then
    .ok (acc.1, cpAppend acc.2 (fmtKey (field v "author") (field v "permlink"))
      ("author_reward_operation", .dict
        [("hbd_payout", field v "hbd_payout"),
         ("hive_payout", field v "hive_payout"),
         ("vesting_payout", field v "vesting_payout")]))
  else if vop.type = "comment_reward_operation" then
    .ok (acc.1, cpAppend acc.2 (fmtKey (field v "author") (field v "permlink"))
      ("comment_reward_operation", .dict
        [("payout", field v "payout"),
         ("author_rewards", field v "author_rewards"),
         ("total_payout_value", field v "total_payout_value"),
         ("curator_payout_value", field v "curator_payout_value"),
         ("beneficiary_payout_value", field v "beneficiary_payout_value")]))
  else if vop.type = "effective_comment_vote_operation" then
    .error "AttributeError: dict object has no attribute append"
  else if vop.type = "comment_payout_update_operation" then
    .ok (acc.1, cpAppend acc.2 (fmtKey (field v "author") (field v "permlink"))
      ("comment_payout_update_operation", .dict [("is_paidout", .bool true)]))
  else .ok acc

/-- `Blocks.prepare_vops` (the `date` parameter is accepted and unused,
as in the source). -/
def prepare_vops (vopsList : List Operation) (date : String) :
    Except String (VoteOps × CPOps) :=
  let _ := date
  vopsList.foldlM prepareVopsStep ([], [])

/-- Python `set.add` on an insertion-ordered model of a set of names. -/
def setAdd (s : List String) (x : String) : List String :=
  if x ∈ s then s else s ++ [x]

/-- Pass 1 of `Blocks._process`: the account name introduced by an
account-creating operation, if any. -/
def op_account_name (op_type : String) (op : PyVal) : Option String :=
  if op_type = "pow_operation" then
    some (field op "worker_account").asStr
  else if op_type = "pow2_operation" then
    some (field (field (field (field op "work") "value") "input") "worker_account").asStr
  else if op_type = "account_create_operation" then
    some (field op "new_account_name").asStr
  else if op_type = "account_create_with_delegation_operation" then
    some (field op "new_account_name").asStr
  else if op_type = "create_claimed_account_operation" then
    some (field op "new_account_name").asStr
  else none

/-- Pass 1 of `Blocks._process`, one operation: add the introduced
account name, if any, to the `account_names` set. -/
def collectOp (s : List String) (op : Operation) : List String :=
  match op_account_name op.type op.value with
  | some n => setAdd s n
  | none => s

/-- Pass 1 of `Blocks._process`: collect `account_names` over both loops. -/
def collectAccountNames (block : Block) : List String :=
  block.transactions.foldl (fun s tx => tx.operations.foldl collectOp s) []

/-- A call the core makes on the database or on a domain sub-processor,
in order of occurrence. -/
inductive Ev where
  | startTrx
  | accountsRegister (names : List String) (date : String)
  | accountsDirty (name : String)
  | postsComment (op : PyVal) (date : String)
  | postsDelete (op : PyVal)
  | postsCommentOptions (op : PyVal)
  | paymentsTransfer (op : PyVal) (txIdx : Nat) (num : Nat) (date : String)
  | customOps (count : Nat) (num : Nat) (date : String)
  | votesEffective (key : String) (v : PyVal) (date : String)
  | postsPayout (ops : CPOps) (date : String)
  | logError (num : Nat)
  | flushPostData
  | flushTags
  | flushVotes
  | flushBlocks (rows : List BlockRecord)
  | flushFollow (trx : Bool)
  | commit

/-- Does the event carry the date tag `d` (events without a date tag are
accepted vacuously)? -/
def Ev.usesDate (d : String) : Ev → Bool
  | .accountsRegister _ d' => d' = d
  | .postsComment _ d' => d' = d
  | .paymentsTransfer _ _ _ d' => d' = d
  | .customOps _ _ d' => d' = d
  | .votesEffective _ _ d' => d' = d
  | .postsPayout _ d' => d' = d
  | _ => true

/-- Is the event one of the end-of-batch flushes or the `COMMIT`? -/
def Ev.isFlushOrCommit : Ev → Bool
  | .flushPostData => true
  | .flushTags => true
  | .flushVotes => true
  | .flushBlocks _ => true
  | .flushFollow _ => true
  | .commit => true
  | _ => false

/-- Is the event an `Accounts.register` call? -/
def Ev.isRegister : Ev → Bool
  | .accountsRegister _ _ => true
  | _ => false

/-- Pass 2 of `Blocks._process`, dispatch for a single operation: the
sub-processor calls made for it, in order. -/
def op_dispatch_events (is_initial_sync : Bool) (num : Nat) (date : String)
    (tx_idx : Nat) (op_type : String) (op : PyVal) : List Ev :=
  if op_type = "account_update_operation" then
    if is_initial_sync then [] else [.accountsDirty (field op "account").asStr]
  else if op_type = "account_update2_operation" then
    if is_initial_sync then [] else [.accountsDirty (field op "account").asStr]
  else if op_type = "comment_operation" then
    .postsComment op date ::
      (if is_initial_sync then [] else [.accountsDirty (field op "author").asStr])
  else if op_type = "delete_comment_operation" then
    [.postsDelete op]
  else if op_type = "comment_options_operation" then
    [.postsCommentOptions op]
  else if op_type = "vote_operation" then
    if is_initial_sync then []
    else [.accountsDirty (field op "author").asStr, .accountsDirty (field op "voter").asStr]
  else if op_type = "transfer_operation" then
    [.paymentsTransfer op tx_idx num date]
  else []

/-- Pass 2 of `Blocks._process`, one operation: count it (unless
`custom_json`), defer `custom_json` payloads, and dispatch. -/
def pass2_step (is_initial_sync : Bool) (num : Nat) (date : String) (tx_idx : Nat)
    (acc : List (String × Int) × List PyVal × List Ev) (operation : Operation) :
    List (String × Int) × List PyVal × List Ev :=
  let stats := if operation.type ≠ "custom_json_operation"
               then opsInc acc.1 operation.type else acc.1
  let json_ops := if operation.type = "custom_json_operation"
                  then acc.2.1 ++ [operation.value] else acc.2.1
  (stats, json_ops, acc.2.2 ++ op_dispatch_events is_initial_sync num date tx_idx operation.type operation.value)

/-- Pass 2 of `Blocks._process`: the second scan over
`enumerate(block['transactions'])`. -/
def pass2 (is_initial_sync : Bool) (num : Nat) (date : String)
    (stats0 : List (String × Int)) (txs : List Transaction) :
    List (String × Int) × List PyVal × List Ev :=
  txs.enum.foldl (fun acc p =>
    p.2.operations.foldl (pass2_step is_initial_sync num date p.1) acc) (stats0, [], [])

/-- The external collaborators of `Blocks`: the block provider's
virtual-ops endpoint and the statistics returned by `CustomOp.process_ops`
and `Posts.comment_payout_op` (both outside the repository slice). -/
structure Externals where
  get_virtual_operations : Nat → List Operation
  custom_stats : List PyVal → Nat → String → List (String × Int)
  payout_stats : CPOps → String → List (String × Int)

/-- Step 5 of `Blocks._process`: during initial sync the prepared pair is
read from the caller-supplied map (absent key means both empty);
otherwise the raw vops are fetched from the provider and folded by
`prepare_vops`. -/
def vopsResult (ext : Externals) (virtual_operations : Nat → Option (VoteOps × CPOps))
    (is_initial_sync : Bool) (num : Nat) (date : String) :
    Except String (VoteOps × CPOps) :=
  if is_initial_sync then .ok ((virtual_operations num).getD ([], []))
  else prepare_vops (ext.get_virtual_operations num) date

/-- `Blocks._process`: push the header, seed the head date if unset,
register pass-1 account names, dispatch pass 2, process deferred
custom-JSON ops, obtain and apply virtual ops, then advance the cached
head date to this block's timestamp.  Returns the new state, the block
num and the trace of sub-processor calls. -/
def _process (ext : Externals) (virtual_operations : Nat → Option (VoteOps × CPOps))
    (is_initial_sync : Bool) (st : MemState) (block : Block) :
    Except String (MemState × Nat × List Ev) :=
  match _push st block with
  | .error e => .error e
  | .ok (num, st1) =>
    let block_date := block.timestamp
    let date := st1.head_block_date.getD block_date
    let ev0 : List Ev := [.accountsRegister (collectAccountNames block) date]
    let p2 := pass2 is_initial_sync num date st1.ops_stats block.transactions
    let stats2 := if p2.2.1.isEmpty then p2.1
        else merge_ops_stats p2.1 (some (ext.custom_stats p2.2.1 num date))
    let ev2 : List Ev := if p2.2.1.isEmpty then [] else [.customOps p2.2.1.length num date]
    match vopsResult ext virtual_operations is_initial_sync num date with
    | .error e => .error e
    | .ok (vote_ops, comment_payout_ops) =>
      let ev3 := vote_ops.map (fun kv => Ev.votesEffective kv.1 kv.2 date)
      let stats3 := if comment_payout_ops.isEmpty then stats2
          else merge_ops_stats stats2 (some (ext.payout_stats comment_payout_ops date))
      let ev4 : List Ev := if comment_payout_ops.isEmpty then []
          else [.postsPayout comment_payout_ops date]
      .ok ({ st1 with ops_stats := stats3, head_block_date := some block_date },
           num, ev0 ++ p2.2.2 ++ ev2 ++ ev3 ++ ev4)

/-- The `for block in blocks` loop of `Blocks.process_multi`: threads the
state, remembers `last_num`, concatenates traces, and stops at the first
raised exception. -/
def runBlocks (ext : Externals) (virtual_operations : Nat → Option (VoteOps × CPOps))
    (is_initial_sync : Bool) :
    MemState → Nat → List Block → MemState × Nat × List Ev × Option String
  | st, last, [] => (st, last, [], none)
  | st, last, b :: rest =>
    match _process ext virtual_operations is_initial_sync st b with
    | .error e => (st, last, [], some e)
    | .ok (st', num, evs) =>
      let r := runBlocks ext virtual_operations is_initial_sync st' num rest
      (r.1, r.2.1, evs ++ r.2.2.1, r.2.2.2)

/-- The outcome of a `Blocks.process_multi` call: the call trace, the
in-memory class state, the committed `hive_blocks` rows, and the
propagated exception if one was raised. -/
structure MultiResult where
  trace : List Ev
  state : MemState
  db : List BlockRecord
  err : Option String

/-- `Blocks.process_multi`: `START TRANSACTION`, process each block; on a
raise, log `last_num + 1` and re-raise (the transaction is rolled back by
the caller, so no staged row reaches `hive_blocks`); on success flush the
post-data cache, tags, votes, the staged block headers and follows, in
that order, then `COMMIT` (which lands the staged rows in `hive_blocks`). -/
def process_multi (ext : Externals) (virtual_operations : Nat → Option (VoteOps × CPOps))
    (is_initial_sync : Bool) (db : List BlockRecord) (st : MemState)
    (blocks : List Block) : MultiResult :=
  let r := runBlocks ext virtual_operations is_initial_sync st 0 blocks
  match r.2.2.2 with
  | some e =>
      { trace := Ev.startTrx :: r.2.2.1 ++ [Ev.logError (r.2.1 + 1)]
      , state := r.1, db := db, err := some e }
  | none =>
      let f := _flush_blocks r.1
      { trace := Ev.startTrx :: r.2.2.1 ++
          [Ev.flushPostData, Ev.flushTags, Ev.flushVotes,
           Ev.flushBlocks f.1, Ev.flushFollow false, Ev.commit]
      , state := f.2, db := db ++ f.1, err := none }

/-- An upstream call or a pop performed by `Blocks.verify_head`. -/
inductive FEv where
  | getBlock (n : Int)
  | lastIrreversible
  | popBlock (n : Int)
deriving Repr, DecidableEq

/-- The upstream (`steem`) interface used by `Blocks.verify_head`. -/
structure Upstream where
  get_block : Int → String
  last_irreversible : Int

/-- The `while True` walk of `Blocks.verify_head`, at offset `k` from the
local head (`cursor = head - k`): assert `head - cursor < 25` ("fork too
deep"), fetch the local row (a missing row is a raise in Python), compare
hashes, and either stop at the match or step back.  The structural
argument `left` carries the remaining allowance `25 - k` of the assert,
so `left = 0` is exactly the asserted condition `head - cursor >= 25`.
Returns the pop count and the upstream fetch trace. -/
def forkWalk (head : Int) (localHash : Int → Option String) (up : Upstream) :
    Nat → Nat → Except String (Nat × List FEv)
  | _, 0 => .error "fork too deep"
  | k, left + 1 =>
    match localHash (head - k) with
    | none => .error "no such block"
    | some hh =>
      if hh = up.get_block (head - k) then .ok (k, [.getBlock (head - k)])
      else
        match forkWalk head localHash up (k + 1) left with
        | .error e => .error e
        | .ok r => .ok (r.1, .getBlock (head - k) :: r.2)

/-- `Blocks.verify_head`: no-op on an empty table; otherwise walk back
from the head, return when no pop is needed, and otherwise consult
`steem.last_irreversible()`, assert `cursor < fork_limit` ("not
proceeding until head is irreversible") and pop the mismatched blocks
head-first.  Returns the upstream/pop trace and the popped nums. -/
def verify_head (head : Int) (localHash : Int → Option String) (up : Upstream) :
    List FEv × Except String (List Int) :=
  if head ≤ 0 then ([], .ok [])
  else
    match forkWalk head localHash up 0 25 with
    | .error e => ([], .error e)
    | .ok (k, evs) =>
      if k = 0 then (evs, .ok [])
      else
        let pops := (List.range k).map (fun i : Nat => head - (i : Int))
        if head - k < up.last_irreversible then
          (evs ++ FEv.lastIrreversible :: pops.map FEv.popBlock, .ok pops)
        else
          (evs ++ [FEv.lastIrreversible], .error "not proceeding until head is irreversible")

/-- The spec's num derivation: the first four bytes of the hash, read as
hex-digit pairs, interpreted as a big-endian 32-bit integer. -/
def big_endian_u32_of_hex (cs : List Char) : Option Nat :=
  match cs with
  | [c0, c1, c2, c3, c4, c5, c6, c7] =>
    (hexVal c0).bind fun d0 => (hexVal c1).bind fun d1 =>
    (hexVal c2).bind fun d2 => (hexVal c3).bind fun d3 =>
    (hexVal c4).bind fun d4 => (hexVal c5).bind fun d5 =>
    (hexVal c6).bind fun d6 => (hexVal c7).bind fun d7 =>
    some ((d0 * 16 + d1) * 2 ^ 24 + (d2 * 16 + d3) * 2 ^ 16 +
          (d4 * 16 + d5) * 2 ^ 8 + (d6 * 16 + d7))
  | _ => none

/-! ### Association-list lookup lemmas -/

theorem lookup_cons_self {a : String} {b : Int} {es : List (String × Int)} :
    List.lookup a ((a, b) :: es) = some b := by
  simp [List.lookup_cons]

theorem lookup_cons_ne {k : String} {b : Int} {es : List (String × Int)} {a : String}
    (h : a ≠ k) : List.lookup a ((k, b) :: es) = List.lookup a es := by
  rw [List.lookup_cons]
  simp [beq_eq_false_iff_ne.mpr h]

theorem lookup_eq_none_of_not_mem_keys {l : List (String × Int)} {k : String}
    (h : k ∉ l.map Prod.fst) : l.lookup k = none := by
  induction l with
  | nil => rfl
  | cons p t ih =>
    rcases p with ⟨a, b⟩
    simp only [List.map_cons, List.mem_cons] at h
    push_neg at h
    rw [lookup_cons_ne h.1, ih h.2]

theorem lookup_map_add (l : List (String × Int)) (k : String) (v : Int) :
    (l.map (fun p => if p.1 = k then (p.1, p.2 + v) else p)).lookup k =
      (l.lookup k).map (fun a => a + v) := by
  induction l with
  | nil => rfl
  | cons p t ih =>
    rcases p with ⟨a, b⟩
    simp only [List.map_cons]
    by_cases hak : a = k
    · subst hak
      have h1 : (if (a, b).1 = a then (a, b + v) else (a, b)) = (a, b + v) := if_pos rfl
      rw [h1, lookup_cons_self, lookup_cons_self]
      rfl
    · have hka : k ≠ a := fun hh => hak hh.symm
      have h1 : (if (a, b).1 = k then (a, b + v) else (a, b)) = (a, b) := if_neg hak
      rw [h1, lookup_cons_ne hka, lookup_cons_ne hka, ih]

theorem lookup_map_add_ne (l : List (String × Int)) (k : String) (v : Int) (k' : String)
    (h : k' ≠ k) :
    (l.map (fun p => if p.1 = k then (p.1, p.2 + v) else p)).lookup k' = l.lookup k' := by
  induction l with
  | nil => rfl
  | cons p t ih =>
    rcases p with ⟨a, b⟩
    simp only [List.map_cons]
    by_cases hak : a = k
    · subst hak
      have h1 : (if (a, b).1 = a then (a, b + v) else (a, b)) = (a, b + v) := if_pos rfl
      rw [h1, lookup_cons_ne h, lookup_cons_ne h, ih]
    · have h1 : (if (a, b).1 = k then (a, b + v) else (a, b)) = (a, b) := if_neg hak
      rw [h1]
      by_cases hka : k' = a
      · subst hka; rw [lookup_cons_self, lookup_cons_self]
      · rw [lookup_cons_ne hka, lookup_cons_ne hka, ih]

theorem lookup_append_single_self (l : List (String × Int)) (k : String) (v : Int)
    (h : l.lookup k = none) : (l ++ [(k, v)]).lookup k = some v := by
  induction l with
  | nil => exact lookup_cons_self
  | cons p t ih =>
    rcases p with ⟨a, b⟩
    by_cases hka : k = a
    · subst hka; rw [lookup_cons_self] at h; cases h
    · rw [lookup_cons_ne hka] at h
      rw [List.cons_append, lookup_cons_ne hka, ih h]

theorem lookup_append_single_ne (l : List (String × Int)) (k : String) (v : Int)
    (k' : String) (h : k' ≠ k) : (l ++ [(k, v)]).lookup k' = l.lookup k' := by
  induction l with
  | nil => rw [List.nil_append, lookup_cons_ne h]
  | cons p t ih =>
    rcases p with ⟨a, b⟩
    by_cases hka : k' = a
    · subst hka; rw [List.cons_append, lookup_cons_self, lookup_cons_self]
    · rw [List.cons_append, lookup_cons_ne hka, lookup_cons_ne hka, ih]

/-! ### `merge_ops_stats` -/

theorem lookup_mergeStatEntry_self (acc : List (String × Int)) (k : String) (v : Int) :
    (mergeStatEntry acc (k, v)).lookup k =
      match acc.lookup k with
      | some a => some (a + v)
      | none => some v := by
  unfold mergeStatEntry
  cases hl : acc.lookup k with
  | none => simp only [hl, Option.isSome_none, Bool.false_eq_true, if_false]
            exact lookup_append_single_self acc k v hl
  | some a => simp only [hl, Option.isSome_some, if_true]
              rw [lookup_map_add, hl]
              rfl

theorem lookup_mergeStatEntry_ne (acc : List (String × Int)) (k : String) (v : Int)
    (k' : String) (h : k' ≠ k) :
    (mergeStatEntry acc (k, v)).lookup k' = acc.lookup k' := by
  unfold mergeStatEntry
  cases hl : (acc.lookup k).isSome with
  | false => simp only [hl, Bool.false_eq_true, if_false]
             exact lookup_append_single_ne acc k v k' h
  | true => simp only [hl, if_true]
            exact lookup_map_add_ne acc k v k' h

theorem lookup_foldl_mergeStatEntry (od2 : List (String × Int)) :
    ∀ od1 : List (String × Int), (od2.map Prod.fst).Nodup → ∀ k : String,
      (od2.foldl mergeStatEntry od1).lookup k =
        match od1.lookup k, od2.lookup k with
        | some a, some b => some (a + b)
        | none, some b => some b
        | some a, none => some a
        | none, none => none := by
  induction od2 with
  | nil =>
    intro od1 _ k
    simp only [List.foldl_nil]
    cases h1 : od1.lookup k <;> simp [h1]
  | cons kv t ih =>
    intro od1 hnd k
    rcases kv with ⟨k0, v0⟩
    simp only [List.map_cons, List.nodup_cons] at hnd
    rw [List.foldl_cons, ih (mergeStatEntry od1 (k0, v0)) hnd.2 k]
    by_cases hk : k = k0
    · subst hk
      have ht : t.lookup k = none := lookup_eq_none_of_not_mem_keys hnd.1
      rw [ht, lookup_mergeStatEntry_self, lookup_cons_self]
      cases h1 : od1.lookup k <;> simp [h1]
    · rw [lookup_mergeStatEntry_ne od1 k0 v0 k hk, lookup_cons_ne hk]

/-- C10: `merge_ops_stats` adds counts on shared keys, keeps `od1`-only
keys, adopts `od2`-only keys, and treats `None` as a right identity.
The `Nodup` hypothesis records that `od2` is a Python dict, whose keys
are unique by construction. -/
theorem merge_ops_stats_spec (od1 od2 : List (String × Int))
    (h : (od2.map Prod.fst).Nodup) :
    (∀ k : String, (merge_ops_stats od1 (some od2)).lookup k =
      match od1.lookup k, od2.lookup k with
      | some a, some b => some (a + b)
      | none, some b => some b
      | some a, none => some a
      | none, none => none) ∧
    merge_ops_stats od1 none = od1 :=
  ⟨fun k => lookup_foldl_mergeStatEntry od2 od1 h k, rfl⟩

/-- C10 witness: a concrete merge, with a shared key, an `od1`-only key
and an `od2`-only key. -/
theorem merge_ops_stats_spec_witness :
    ((([("votes", (3 : Int)), ("posts", 7)] : List (String × Int)).map Prod.fst).Nodup ∧
      (merge_ops_stats [("votes", 2), ("follows", 4)]
        (some [("votes", 3), ("posts", 7)])).lookup "votes" = some 5) ∧
    (merge_ops_stats [("votes", 2), ("follows", 4)]
        (some [("votes", 3), ("posts", 7)])).lookup "follows" = some 4 ∧
    (merge_ops_stats [("votes", 2), ("follows", 4)]
        (some [("votes", 3), ("posts", 7)])).lookup "posts" = some 7 ∧
    merge_ops_stats [("votes", 2), ("follows", 4)] none = [("votes", 2), ("follows", 4)] := by
  have hnd : (([("votes", (3 : Int)), ("posts", 7)] : List (String × Int)).map Prod.fst).Nodup := by
    decide
  have h := merge_ops_stats_spec [("votes", 2), ("follows", 4)] [("votes", 3), ("posts", 7)] hnd
  exact ⟨⟨hnd, h.1 "votes"⟩, h.1 "follows", h.1 "posts", h.2⟩

/-! ### `prepare_vops` -/

/-- C1: `prepare_vops` is not total on inputs containing an
`effective_comment_vote_operation`: that branch runs
`vote_ops.append(vop)` on `vote_ops = {}`, a `dict`, so in Python the
call raises `AttributeError` instead of returning the two outputs. -/
theorem prepare_vops_effective_vote_raises :
    prepare_vops
      [{ type := "effective_comment_vote_operation"
       , value := .dict
           [("author", .str "alice"), ("permlink", .str "firstpost"),
            ("pending_payout", .str "1.000 HBD")] }]
      "2020-01-01T00:00:00" =
      .error "AttributeError: dict object has no attribute append" := rfl

/-! ### `_flush_blocks` -/

/-- A staging buffer whose two headers were staged out of `num` order. -/
def outOfOrderState : MemState :=
  { blocks_to_flush :=
      [{ num := 2, hash := "b2", prev := "b1", txs := 0, ops := 0, date := "T2" },
       { num := 1, hash := "b1", prev := "b0", txs := 0, ops := 0, date := "T1" }]
  , ops_stats := [], head_block_date := none }

/-- C8 counterexample: `_flush_blocks` emits the staged rows in buffer
(insertion) order, not sorted; on a buffer staged out of `num` order the
single multi-row insert is not in ascending `num` order. -/
theorem flush_blocks_not_ascending :
    ¬ List.Pairwise (fun a b => a ≤ b)
        (((_flush_blocks outOfOrderState).1).map (fun r => r.num)) := by
  decide

/-- C8 (amended): `_flush_blocks` writes all staged headers in one
multi-row insert in staging (insertion) order — which is ascending by
`num` whenever the headers were staged in ascending `num` order — and
afterwards the staging buffer is empty. -/
theorem flush_blocks_insertion_order (st : MemState) :
    (_flush_blocks st).1 = st.blocks_to_flush ∧
    (_flush_blocks st).2.blocks_to_flush = [] ∧
    (List.Pairwise (fun a b => a.num ≤ b.num) st.blocks_to_flush →
      List.Pairwise (fun a b => a ≤ b)
        (((_flush_blocks st).1).map (fun r => r.num))) :=
  ⟨rfl, rfl, fun h => by simpa [List.pairwise_map] using h⟩

/-- C8 witness: a buffer staged in ascending order flushes in ascending
order and is left empty. -/
theorem flush_blocks_insertion_order_witness :
    (_flush_blocks
        { blocks_to_flush :=
            [{ num := 1, hash := "b1", prev := "b0", txs := 0, ops := 0, date := "T1" },
             { num := 2, hash := "b2", prev := "b1", txs := 0, ops := 0, date := "T2" }]
        , ops_stats := [], head_block_date := none }).2.blocks_to_flush = [] ∧
    List.Pairwise (fun a b => a ≤ b)
      (((_flush_blocks
        { blocks_to_flush :=
            [{ num := 1, hash := "b1", prev := "b0", txs := 0, ops := 0, date := "T1" },
             { num := 2, hash := "b2", prev := "b1", txs := 0, ops := 0, date := "T2" }]
        , ops_stats := [], head_block_date := none }).1).map (fun r => r.num)) := by
  have h := flush_blocks_insertion_order
      { blocks_to_flush :=
          [{ num := 1, hash := "b1", prev := "b0", txs := 0, ops := 0, date := "T1" },
           { num := 2, hash := "b2", prev := "b1", txs := 0, ops := 0, date := "T2" }]
      , ops_stats := [], head_block_date := none }
  exact ⟨h.2.1, h.2.2 (by decide)⟩

/-! ### `_push` and the num derivation -/

theorem hexVal_lt_16 {c : Char} {d : Nat} (h : hexVal c = some d) : d < 16 := by
  unfold hexVal at h
  split_ifs at h with h1 h2 h3 <;> simp_all <;> omega

/-- C9: for a block whose `block_id` starts with 8 hex digits, `_push`
succeeds, and the returned num — also the one stored in the staged
header, whose hash is `block_id` — equals the first four bytes of the
hash interpreted as a big-endian 32-bit integer. -/
theorem push_num_big_endian (st : MemState) (block : Block)
    (c0 c1 c2 c3 c4 c5 c6 c7 : Char) (d0 d1 d2 d3 d4 d5 d6 d7 : Nat)
    (hc : block.block_id.data.take 8 = [c0, c1, c2, c3, c4, c5, c6, c7])
    (h0 : hexVal c0 = some d0) (h1 : hexVal c1 = some d1)
    (h2 : hexVal c2 = some d2) (h3 : hexVal c3 = some d3)
    (h4 : hexVal c4 = some d4) (h5 : hexVal c5 = some d5)
    (h6 : hexVal c6 = some d6) (h7 : hexVal c7 = some d7) :
    ∃ num st', _push st block = .ok (num, st') ∧
      big_endian_u32_of_hex (block.block_id.data.take 8) = some num ∧
      num < 2 ^ 32 ∧
      st'.blocks_to_flush = st.blocks_to_flush ++
        [{ num := num, hash := block.block_id, prev := block.previous,
           txs := block.transactions.length,
           ops := (block.transactions.map (fun tx => tx.operations.length)).sum,
           date := block.timestamp }] := by
  have hE : parseHexNat (block.block_id.data.take 8) =
      some (((((((d0 * 16 + d1) * 16 + d2) * 16 + d3) * 16 + d4) * 16 + d5) * 16 + d6)
            * 16 + d7) := by
    rw [hc]
    simp [parseHexNat, h0, h1, h2, h3, h4, h5, h6, h7]
  refine ⟨(((((((d0 * 16 + d1) * 16 + d2) * 16 + d3) * 16 + d4) * 16 + d5) * 16 + d6) * 16 + d7),
    { st with blocks_to_flush := st.blocks_to_flush ++
        [{ num := (((((((d0 * 16 + d1) * 16 + d2) * 16 + d3) * 16 + d4) * 16 + d5) * 16 + d6) * 16 + d7),
           hash := block.block_id, prev := block.previous,
           txs := block.transactions.length,
           ops := (block.transactions.map (fun tx => tx.operations.length)).sum,
           date := block.timestamp }] }, ?_, ?_, ?_, ?_⟩
  · unfold _push
    rw [hE]
  · rw [hc]
    simp only [big_endian_u32_of_hex, h0, h1, h2, h3, h4, h5, h6, h7, Option.some_bind]
    congr 1
    ring
  · have b0 := hexVal_lt_16 h0
    have b1 := hexVal_lt_16 h1
    have b2 := hexVal_lt_16 h2
    have b3 := hexVal_lt_16 h3
    have b4 := hexVal_lt_16 h4
    have b5 := hexVal_lt_16 h5
    have b6 := hexVal_lt_16 h6
    have b7 := hexVal_lt_16 h7
    omega
  · rfl

/-- C9 witness: a concrete block whose id starts `0000012c`, pushed to
num `300 = 0x12c`. -/
theorem push_num_big_endian_witness :
    ∃ num st',
      _push { blocks_to_flush := [], ops_stats := [], head_block_date := none }
        { block_id := "0000012cffff", previous := "0000012bffff"
        , timestamp := "2020-01-01T00:00:00", transactions := [] } = .ok (num, st') ∧
      big_endian_u32_of_hex (("0000012cffff" : String).data.take 8) = some num ∧
      num < 2 ^ 32 ∧
      st'.blocks_to_flush = [] ++
        [{ num := num, hash := "0000012cffff", prev := "0000012bffff",
           txs := ([] : List Transaction).length,
           ops := (([] : List Transaction).map (fun tx => tx.operations.length)).sum,
           date := "2020-01-01T00:00:00" }] :=
  push_num_big_endian
    { blocks_to_flush := [], ops_stats := [], head_block_date := none }
    { block_id := "0000012cffff", previous := "0000012bffff"
    , timestamp := "2020-01-01T00:00:00", transactions := [] }
    '0' '0' '0' '0' '0' '1' '2' 'c' 0 0 0 0 0 1 2 12
    (by rfl) (by rfl) (by rfl) (by rfl) (by rfl) (by rfl) (by rfl) (by rfl) (by rfl)

/-! ### `verify_head` -/

theorem forkWalk_succ (head : Int) (localHash : Int → Option String) (up : Upstream)
    (k left : Nat) :
    forkWalk head localHash up k (left + 1) =
      match localHash (head - k) with
      | none => .error "no such block"
      | some hh =>
        if hh = up.get_block (head - k) then .ok (k, [.getBlock (head - k)])
        else
          match forkWalk head localHash up (k + 1) left with
          | .error e => .error e
          | .ok r => .ok (r.1, .getBlock (head - k) :: r.2) := rfl

theorem forkWalk_ok_lt (head : Int) (localHash : Int → Option String) (up : Upstream) :
    ∀ left k r, forkWalk head localHash up k left = .ok r → r.1 < k + left := by
  intro left
  induction left with
  | zero => intro k r h; exact Except.noConfusion h
  | succ left ih =>
    intro k r h
    rw [forkWalk_succ] at h
    cases hl : localHash (head - k) with
    | none => rw [hl] at h; exact Except.noConfusion h
    | some hh =>
      rw [hl] at h
      dsimp only at h
      by_cases he : hh = up.get_block (head - k)
      · rw [if_pos he] at h
        injection h with h
        rw [← h]
        omega
      · rw [if_neg he] at h
        cases hr : forkWalk head localHash up (k + 1) left with
        | error e => rw [hr] at h; exact Except.noConfusion h
        | ok r' =>
          rw [hr] at h
          injection h with h
          have := ih (k + 1) r' hr
          rw [← h]
          dsimp only
          omega

theorem forkWalk_events (head : Int) (localHash : Int → Option String) (up : Upstream) :
    ∀ left k r, forkWalk head localHash up k left = .ok r →
      ∀ ev ∈ r.2, ∃ n, ev = FEv.getBlock n := by
  intro left
  induction left with
  | zero => intro k r h; exact Except.noConfusion h
  | succ left ih =>
    intro k r h
    rw [forkWalk_succ] at h
    cases hl : localHash (head - k) with
    | none => rw [hl] at h; exact Except.noConfusion h
    | some hh =>
      rw [hl] at h
      dsimp only at h
      by_cases he : hh = up.get_block (head - k)
      · rw [if_pos he] at h
        injection h with h
        rw [← h]
        intro ev hev
        exact ⟨head - k, by simpa using hev⟩
      · rw [if_neg he] at h
        cases hr : forkWalk head localHash up (k + 1) left with
        | error e => rw [hr] at h; exact Except.noConfusion h
        | ok r' =>
          rw [hr] at h
          injection h with h
          rw [← h]
          intro ev hev
          rcases List.mem_cons.mp hev with h1 | h1
          · exact ⟨head - k, h1⟩
          · exact ih (k + 1) r' hr ev h1

theorem forkWalk_mismatch_deep (head : Int) (localHash : Int → Option String) (up : Upstream)
    (hmis : ∀ j : Nat, j < 25 →
      ∃ s, localHash (head - j) = some s ∧ s ≠ up.get_block (head - j)) :
    ∀ left k, k + left = 25 → forkWalk head localHash up k left = .error "fork too deep" := by
  intro left
  induction left with
  | zero => intro k hk; rfl
  | succ left ih =>
    intro k hk
    obtain ⟨s, hs, hne⟩ := hmis k (by omega)
    rw [forkWalk_succ]
    simp only [hs, if_neg hne, ih (k + 1) (by omega)]

/-- C5: `verify_head` never pops more than 24 blocks (so `head_num`
decreases by at most 24 in fork recovery), and a divergence covering the
whole 25-block window aborts with "fork too deep". -/
theorem verify_head_depth_bound (head : Int) (localHash : Int → Option String)
    (up : Upstream) :
    (∀ pops, (verify_head head localHash up).2 = .ok pops → pops.length ≤ 24) ∧
    (0 < head →
      (∀ j : Nat, j < 25 →
        ∃ s, localHash (head - j) = some s ∧ s ≠ up.get_block (head - j)) →
      (verify_head head localHash up).2 = .error "fork too deep") := by
  constructor
  · intro pops hp
    unfold verify_head at hp
    by_cases hh : head ≤ 0
    · rw [if_pos hh] at hp
      injection hp with hp
      rw [← hp]
      decide
    · rw [if_neg hh] at hp
      cases hw : forkWalk head localHash up 0 25 with
      | error e => rw [hw] at hp; exact Except.noConfusion hp
      | ok r =>
        obtain ⟨k, evs⟩ := r
        rw [hw] at hp
        dsimp only at hp
        by_cases hk : k = 0
        · rw [if_pos hk] at hp
          injection hp with hp
          rw [← hp]
          decide
        · rw [if_neg hk] at hp
          by_cases hlt : head - k < up.last_irreversible
          · rw [if_pos hlt] at hp
            injection hp with hp
            have hklt := forkWalk_ok_lt head localHash up 25 0 (k, evs) hw
            rw [← hp]
            simp only [List.length_map, List.length_range]
            omega
          · rw [if_neg hlt] at hp
            exact Except.noConfusion hp
  · intro hh hmis
    unfold verify_head
    rw [if_neg (by omega : ¬ head ≤ 0),
        forkWalk_mismatch_deep head localHash up hmis 25 0 (by omega)]

/-- C5 witness: a no-fork head pops nothing, and a 25-deep divergence is
fatal. -/
theorem verify_head_depth_bound_witness :
    ([] : List Int).length ≤ 24 ∧
    (verify_head 1000 (fun _ => some "localhash")
      { get_block := fun _ => "upstreamhash", last_irreversible := 990 }).2 =
      .error "fork too deep" := by
  constructor
  · exact (verify_head_depth_bound 5 (fun _ => some "h")
      { get_block := fun _ => "h", last_irreversible := 0 }).1 [] rfl
  · exact (verify_head_depth_bound 1000 (fun _ => some "localhash")
      { get_block := fun _ => "upstreamhash", last_irreversible := 990 }).2
      (by norm_num)
      (fun j hj => ⟨"localhash", rfl, (by decide : ("localhash" : String) ≠ "upstreamhash")⟩)

/-- C6: when pops are required, `verify_head` consults the upstream
last-irreversible height and refuses (performing no pop) unless
`cursor < last_irreversible`; when the head hash matches upstream it
returns without popping and without consulting last-irreversible; and
any performed pop is preceded in the call trace by the
last-irreversible query. -/
theorem verify_head_irreversibility_gate (head : Int) (localHash : Int → Option String)
    (up : Upstream) :
    (0 < head → localHash head = some (up.get_block head) →
      (verify_head head localHash up).2 = .ok [] ∧
      FEv.lastIrreversible ∉ (verify_head head localHash up).1) ∧
    (0 < head → ∀ k evs, forkWalk head localHash up 0 25 = .ok (k, evs) → k ≠ 0 →
      up.last_irreversible ≤ head - k →
      (verify_head head localHash up).2 =
        .error "not proceeding until head is irreversible" ∧
      ∀ n : Int, FEv.popBlock n ∉ (verify_head head localHash up).1) ∧
    (∀ n : Int, FEv.popBlock n ∈ (verify_head head localHash up).1 →
      ∃ pre suf, (verify_head head localHash up).1 = pre ++ FEv.lastIrreversible :: suf ∧
        ∀ m : Int, FEv.popBlock m ∉ pre) := by
  refine ⟨?_, ?_, ?_⟩
  · intro hh hm
    have hw : forkWalk head localHash up 0 25 = .ok (0, [FEv.getBlock head]) := by
      rw [show (25 : Nat) = 24 + 1 from rfl, forkWalk_succ]
      simp [hm]
    unfold verify_head
    rw [if_neg (by omega : ¬ head ≤ 0), hw]
    dsimp only
    constructor
    · rfl
    · simp
  · intro hh k evs hw hk hle
    unfold verify_head
    rw [if_neg (by omega : ¬ head ≤ 0), hw]
    dsimp only
    rw [if_neg hk, if_neg (by omega : ¬ head - k < up.last_irreversible)]
    refine ⟨rfl, ?_⟩
    intro n hn
    rcases List.mem_append.mp hn with h1 | h1
    · obtain ⟨m, hm⟩ := forkWalk_events head localHash up 25 0 (k, evs) hw _ h1
      exact FEv.noConfusion hm
    · simp at h1
  · intro n hn
    unfold verify_head at hn ⊢
    by_cases hh : head ≤ 0
    · rw [if_pos hh] at hn
      simp at hn
    · rw [if_neg hh] at hn ⊢
      cases hw : forkWalk head localHash up 0 25 with
      | error e => rw [hw] at hn; simp at hn
      | ok r =>
        obtain ⟨k, evs⟩ := r
        rw [hw] at hn
        dsimp only at hn ⊢
        by_cases hk : k = 0
        · rw [if_pos hk] at hn
          obtain ⟨m, hm⟩ := forkWalk_events head localHash up 25 0 (k, evs) hw _ hn
          exact FEv.noConfusion hm
        · rw [if_neg hk] at hn ⊢
          by_cases hlt : head - k < up.last_irreversible
          · rw [if_pos hlt] at hn ⊢
            refine ⟨evs, ((List.range k).map (fun i : Nat => head - (i : Int))).map FEv.popBlock,
              rfl, ?_⟩
            intro m hm
            obtain ⟨j, hj⟩ := forkWalk_events head localHash up 25 0 (k, evs) hw _ hm
            exact FEv.noConfusion hj
          · rw [if_neg hlt] at hn
            rcases List.mem_append.mp hn with h1 | h1
            · obtain ⟨j, hj⟩ := forkWalk_events head localHash up 25 0 (k, evs) hw _ h1
              exact absurd hj (by simp)
            · simp at h1

/-- C6 witness: a matching head skips the irreversibility query; a fork
whose divergence point is not yet irreversible aborts without popping;
and on a recoverable fork every pop follows the irreversibility query. -/
theorem verify_head_irreversibility_gate_witness :
    ((verify_head 7 (fun _ => some "same")
        { get_block := fun _ => "same", last_irreversible := 3 }).2 = .ok [] ∧
      FEv.lastIrreversible ∉ (verify_head 7 (fun _ => some "same")
        { get_block := fun _ => "same", last_irreversible := 3 }).1) ∧
    ((verify_head 5 (fun n => some (if n = 5 then "forked" else "common"))
        { get_block := fun _ => "common", last_irreversible := 3 }).2 =
        .error "not proceeding until head is irreversible" ∧
      ∀ n : Int, FEv.popBlock n ∉ (verify_head 5
        (fun n => some (if n = 5 then "forked" else "common"))
        { get_block := fun _ => "common", last_irreversible := 3 }).1) ∧
    (∃ pre suf, (verify_head 5 (fun n => some (if n = 5 then "forked" else "common"))
        { get_block := fun _ => "common", last_irreversible := 10 }).1 =
        pre ++ FEv.lastIrreversible :: suf ∧
      ∀ m : Int, FEv.popBlock m ∉ pre) := by
  refine ⟨?_, ?_, ?_⟩
  · exact (verify_head_irreversibility_gate 7 (fun _ => some "same")
      { get_block := fun _ => "same", last_irreversible := 3 }).1 (by norm_num) rfl
  · exact (verify_head_irreversibility_gate 5
      (fun n => some (if n = 5 then "forked" else "common"))
      { get_block := fun _ => "common", last_irreversible := 3 }).2.1 (by norm_num)
      1 [FEv.getBlock 5, FEv.getBlock 4] rfl (by decide) (by decide)
  · exact (verify_head_irreversibility_gate 5
      (fun n => some (if n = 5 then "forked" else "common"))
      { get_block := fun _ => "common", last_irreversible := 10 }).2.2 5 (by decide)

/-! ### Event-trace lemmas for `_process` -/

theorem _push_ok_head_date {st : MemState} {block : Block} {num : Nat} {st' : MemState}
    (h : _push st block = .ok (num, st')) :
    st'.head_block_date = st.head_block_date := by
  unfold _push at h
  cases hp : parseHexNat (block.block_id.data.take 8) with
  | none => rw [hp] at h; exact Except.noConfusion h
  | some n =>
    rw [hp] at h
    dsimp only at h
    injection h with h
    injection h with h1 h2
    rw [← h2]

theorem op_dispatch_events_prop (i : Bool) (n : Nat) (d : String) (t : Nat)
    (ty : String) (op : PyVal) :
    ∀ ev ∈ op_dispatch_events i n d t ty op,
      ev.isFlushOrCommit = false ∧ ev.usesDate d = true ∧ ev.isRegister = false := by
  intro ev hev
  unfold op_dispatch_events at hev
  split_ifs at hev <;>
    simp_all [Ev.isFlushOrCommit, Ev.usesDate, Ev.isRegister] <;>
    rcases hev with h1 | h1 <;> simp_all [Ev.isFlushOrCommit, Ev.usesDate, Ev.isRegister]

theorem pass2_step_events (i : Bool) (n : Nat) (d : String) (t : Nat)
    (acc : List (String × Int) × List PyVal × List Ev) (operation : Operation) :
    ∀ ev ∈ (pass2_step i n d t acc operation).2.2,
      ev ∈ acc.2.2 ∨
        (ev.isFlushOrCommit = false ∧ ev.usesDate d = true ∧ ev.isRegister = false) := by
  intro ev hev
  unfold pass2_step at hev
  dsimp only at hev
  rcases List.mem_append.mp hev with h | h
  · exact Or.inl h
  · exact Or.inr (op_dispatch_events_prop i n d t operation.type operation.value ev h)

theorem pass2_ops_events (i : Bool) (n : Nat) (d : String) (t : Nat) :
    ∀ (ops : List Operation) (acc : List (String × Int) × List PyVal × List Ev),
      ∀ ev ∈ (ops.foldl (pass2_step i n d t) acc).2.2,
        ev ∈ acc.2.2 ∨
          (ev.isFlushOrCommit = false ∧ ev.usesDate d = true ∧ ev.isRegister = false) := by
  intro ops
  induction ops with
  | nil => intro acc ev hev; exact Or.inl hev
  | cons op rest ih =>
    intro acc ev hev
    rw [List.foldl_cons] at hev
    rcases ih (pass2_step i n d t acc op) ev hev with h | h
    · exact pass2_step_events i n d t acc op ev h
    · exact Or.inr h

theorem pass2_txs_events (i : Bool) (n : Nat) (d : String) :
    ∀ (l : List (Nat × Transaction)) (acc : List (String × Int) × List PyVal × List Ev),
      ∀ ev ∈ (l.foldl (fun acc p => p.2.operations.foldl (pass2_step i n d p.1) acc) acc).2.2,
        ev ∈ acc.2.2 ∨
          (ev.isFlushOrCommit = false ∧ ev.usesDate d = true ∧ ev.isRegister = false) := by
  intro l
  induction l with
  | nil => intro acc ev hev; exact Or.inl hev
  | cons p rest ih =>
    intro acc ev hev
    rw [List.foldl_cons] at hev
    rcases ih (p.2.operations.foldl (pass2_step i n d p.1) acc) ev hev with h | h
    · exact pass2_ops_events i n d p.1 p.2.operations acc ev h
    · exact Or.inr h

theorem pass2_events (i : Bool) (n : Nat) (d : String) (stats0 : List (String × Int))
    (txs : List Transaction) :
    ∀ ev ∈ (pass2 i n d stats0 txs).2.2,
      ev.isFlushOrCommit = false ∧ ev.usesDate d = true ∧ ev.isRegister = false := by
  intro ev hev
  unfold pass2 at hev
  rcases pass2_txs_events i n d txs.enum (stats0, [], []) ev hev with h | h
  · exact absurd h (List.not_mem_nil ev)
  · exact h

/-- The event trace of a successful `Blocks._process` call: pass-1
registration comes first, tagged with the head date, and every later
event is a non-register dispatch event tagged with that same date; the
cached head date is advanced to this block's timestamp. -/
theorem process_events {ext : Externals} {vops : Nat → Option (VoteOps × CPOps)}
    {sync : Bool} {st : MemState} {block : Block} {st' : MemState} {num : Nat}
    {evs : List Ev}
    (h : _process ext vops sync st block = .ok (st', num, evs)) :
    ∃ rest, evs = Ev.accountsRegister (collectAccountNames block)
        (st.head_block_date.getD block.timestamp) :: rest ∧
      (∀ ev ∈ rest, ev.isFlushOrCommit = false ∧
        ev.usesDate (st.head_block_date.getD block.timestamp) = true ∧
        ev.isRegister = false) ∧
      st'.head_block_date = some block.timestamp := by
  unfold _process at h
  cases hp : _push st block with
  | error e => rw [hp] at h; exact Except.noConfusion h
  | ok pr =>
    obtain ⟨num0, st1⟩ := pr
    have hd1 : st1.head_block_date = st.head_block_date := _push_ok_head_date hp
    rw [hp] at h
    dsimp only at h
    rw [hd1] at h
    cases hv : vopsResult ext vops sync num0 (st.head_block_date.getD block.timestamp) with
    | error e => rw [hv] at h; exact Except.noConfusion h
    | ok vr =>
      obtain ⟨vote_ops, cpo⟩ := vr
      rw [hv] at h
      dsimp only at h
      injection h with h
      injection h with hst h
      injection h with hnum hevs
      refine ⟨_, hevs.symm.trans (List.singleton_append ..), ?_, ?_⟩
      · intro ev hev
        simp only [List.append_eq, List.nil_append, List.append_assoc, List.mem_append] at hev
        rcases hev with h1 | h1 | h1 | h1
        · exact pass2_events sync num0 (st.head_block_date.getD block.timestamp)
            st1.ops_stats block.transactions ev h1
        · by_cases hje : (pass2 sync num0 (st.head_block_date.getD block.timestamp)
              st1.ops_stats block.transactions).2.1.isEmpty
          · rw [if_pos hje] at h1
            exact absurd h1 (List.not_mem_nil ev)
          · rw [if_neg hje] at h1
            have hev2 : ev = Ev.customOps (pass2 sync num0
                (st.head_block_date.getD block.timestamp)
                st1.ops_stats block.transactions).2.1.length num0
                (st.head_block_date.getD block.timestamp) := by simpa using h1
            rw [hev2]
            exact ⟨rfl, by simp [Ev.usesDate], rfl⟩
        · obtain ⟨kv, _, hkv⟩ := List.mem_map.mp h1
          rw [← hkv]
          exact ⟨rfl, by simp [Ev.usesDate], rfl⟩
        · by_cases hce : cpo.isEmpty
          · rw [if_pos hce] at h1
            exact absurd h1 (List.not_mem_nil ev)
          · rw [if_neg hce] at h1
            have hev4 : ev = Ev.postsPayout cpo (st.head_block_date.getD block.timestamp) := by
              simpa using h1
            rw [hev4]
            exact ⟨rfl, by simp [Ev.usesDate], rfl⟩
      · rw [← hst]

/-- C3: every sub-processor call made for a block is tagged with the
cached head date — the timestamp of the previously processed block — or,
when the cache is unset (the very first block of this process), with the
block's own timestamp; afterwards the cache holds this block's
timestamp, establishing the rule for the next block. -/
theorem process_head_date_rule (ext : Externals) (vops : Nat → Option (VoteOps × CPOps))
    (sync : Bool) (st : MemState) (block : Block) (st' : MemState) (num : Nat)
    (evs : List Ev)
    (h : _process ext vops sync st block = .ok (st', num, evs)) :
    (∀ d, st.head_block_date = some d → ∀ ev ∈ evs, ev.usesDate d = true) ∧
    (st.head_block_date = none → ∀ ev ∈ evs, ev.usesDate block.timestamp = true) ∧
    st'.head_block_date = some block.timestamp := by
  obtain ⟨rest, hevs, hrest, hdate⟩ := process_events h
  refine ⟨?_, ?_, hdate⟩
  · intro d hd ev hev
    rw [hevs] at hev
    rcases List.mem_cons.mp hev with h1 | h1
    · rw [h1, hd]
      simp [Ev.usesDate]
    · have h2 := (hrest ev h1).2.1
      rw [hd] at h2
      simpa using h2
  · intro hd ev hev
    rw [hevs] at hev
    rcases List.mem_cons.mp hev with h1 | h1
    · rw [h1, hd]
      simp [Ev.usesDate]
    · have h2 := (hrest ev h1).2.1
      rw [hd] at h2
      simpa using h2

/-- A concrete `Externals` oracle for witnesses. -/
def trivialExternals : Externals :=
  { get_virtual_operations := fun _ => []
  , custom_stats := fun _ _ _ => []
  , payout_stats := fun _ _ => [] }

/-- C3 witness: the first block of a fresh process tags its registration
with its own timestamp, and the cache afterwards holds that timestamp. -/
theorem process_head_date_rule_witness :
    Ev.usesDate "2020-01-01" (Ev.accountsRegister [] "2020-01-01") = true ∧
    MemState.head_block_date
      ⟨[⟨1, "00000001", "00000000", 0, 0, "2020-01-01"⟩], [], some "2020-01-01"⟩ =
      some "2020-01-01" := by
  have h := process_head_date_rule trivialExternals (fun _ => none) true
    ⟨[], [], none⟩
    { block_id := "00000001", previous := "00000000", timestamp := "2020-01-01",
      transactions := [] }
    ⟨[⟨1, "00000001", "00000000", 0, 0, "2020-01-01"⟩], [], some "2020-01-01"⟩
    1 [Ev.accountsRegister [] "2020-01-01"] rfl
  exact ⟨h.2.1 rfl (Ev.accountsRegister [] "2020-01-01") (List.mem_singleton.mpr rfl), h.2.2⟩

/-! ### Pass-1 collection lemmas -/

theorem mem_setAdd_self (s : List String) (x : String) : x ∈ setAdd s x := by
  unfold setAdd
  split_ifs with h
  · exact h
  · simp

theorem mem_setAdd_of_mem {s : List String} {x : String} (y : String) (h : x ∈ s) :
    x ∈ setAdd s y := by
  unfold setAdd
  split_ifs
  · exact h
  · exact List.mem_append_left _ h

theorem mem_collectOp_self {s : List String} {op : Operation} {nm : String}
    (h : op_account_name op.type op.value = some nm) : nm ∈ collectOp s op := by
  unfold collectOp
  rw [h]
  exact mem_setAdd_self s nm

theorem mem_collectOp_of_mem {s : List String} {x : String} (op : Operation) (h : x ∈ s) :
    x ∈ collectOp s op := by
  unfold collectOp
  cases op_account_name op.type op.value with
  | none => exact h
  | some n => exact mem_setAdd_of_mem n h

theorem mem_foldl_collectOp_of_mem (ops : List Operation) :
    ∀ {s x}, x ∈ s → x ∈ ops.foldl collectOp s := by
  induction ops with
  | nil => intro s x h; exact h
  | cons op rest ih => intro s x h; exact ih (mem_collectOp_of_mem op h)

theorem mem_foldl_collectOp (ops : List Operation) :
    ∀ {op nm}, op ∈ ops → op_account_name op.type op.value = some nm →
      ∀ s, nm ∈ ops.foldl collectOp s := by
  induction ops with
  | nil => intro op nm hop; cases hop
  | cons o rest ih =>
    intro op nm hop h s
    rcases List.mem_cons.mp hop with h1 | h1
    · rw [h1] at h
      exact mem_foldl_collectOp_of_mem rest (mem_collectOp_self h)
    · exact ih h1 h (collectOp s o)

theorem mem_foldl_tx_of_mem (txs : List Transaction) :
    ∀ {s x}, x ∈ s →
      x ∈ txs.foldl (fun s tx => tx.operations.foldl collectOp s) s := by
  induction txs with
  | nil => intro s x h; exact h
  | cons tx rest ih =>
    intro s x h
    exact ih (mem_foldl_collectOp_of_mem tx.operations h)

theorem mem_foldl_txs (txs : List Transaction) :
    ∀ {tx op nm}, tx ∈ txs → op ∈ tx.operations →
      op_account_name op.type op.value = some nm →
      ∀ s, nm ∈ txs.foldl (fun s tx => tx.operations.foldl collectOp s) s := by
  induction txs with
  | nil => intro tx op nm htx; cases htx
  | cons t rest ih =>
    intro tx op nm htx hop h s
    rcases List.mem_cons.mp htx with h1 | h1
    · exact mem_foldl_tx_of_mem rest (mem_foldl_collectOp t.operations (h1 ▸ hop) h _)
    · exact ih h1 hop h _

/-- C4: the pass-1 registration of all account names introduced by
`pow`, `pow2`, `account_create`, `account_create_with_delegation` and
`create_claimed_account` operations is the first sub-processor call of
`_process`; no other registration occurs, and every introduced name is
in the registered set. -/
theorem process_pass_ordering (ext : Externals) (vops : Nat → Option (VoteOps × CPOps))
    (sync : Bool) (st : MemState) (block : Block) (st' : MemState) (num : Nat)
    (evs : List Ev)
    (h : _process ext vops sync st block = .ok (st', num, evs)) :
    ∃ rest, evs = Ev.accountsRegister (collectAccountNames block)
        (st.head_block_date.getD block.timestamp) :: rest ∧
      (∀ ev ∈ rest, ev.isRegister = false) ∧
      (∀ tx ∈ block.transactions, ∀ op ∈ tx.operations, ∀ nm,
        op_account_name op.type op.value = some nm →
        nm ∈ collectAccountNames block) := by
  obtain ⟨rest, hevs, hrest, _⟩ := process_events h
  exact ⟨rest, hevs, fun ev hev => (hrest ev hev).2.2,
    fun tx htx op hop nm hnm => mem_foldl_txs block.transactions htx hop hnm []⟩

/-- C4 witness: an `account_create` for "alice" followed by a comment in
the same block; "alice" is in the registered pass-1 set. -/
theorem process_pass_ordering_witness :
    "alice" ∈ collectAccountNames
      { block_id := "00000002", previous := "00000001", timestamp := "T2",
        transactions :=
          [{ operations :=
              [{ type := "account_create_operation",
                 value := .dict [("new_account_name", .str "alice")] },
               { type := "comment_operation",
                 value := .dict [("author", .str "alice")] }] }] } := by
  obtain ⟨rest, hevs, hreg, hcomplete⟩ := process_pass_ordering trivialExternals
    (fun _ => none) true
    ⟨[], [], none⟩
    { block_id := "00000002", previous := "00000001", timestamp := "T2",
      transactions :=
        [{ operations :=
            [{ type := "account_create_operation",
               value := .dict [("new_account_name", .str "alice")] },
             { type := "comment_operation",
               value := .dict [("author", .str "alice")] }] }] }
    ⟨[⟨2, "00000002", "00000001", 1, 2, "T2"⟩],
      [("account_create_operation", 1), ("comment_operation", 1)], some "T2"⟩
    2
    [Ev.accountsRegister ["alice"] "T2",
     Ev.postsComment (.dict [("author", .str "alice")]) "T2"]
    rfl
  exact hcomplete
    { operations :=
        [{ type := "account_create_operation",
           value := .dict [("new_account_name", .str "alice")] },
         { type := "comment_operation",
           value := .dict [("author", .str "alice")] }] }
    (List.mem_singleton.mpr rfl)
    { type := "account_create_operation",
      value := .dict [("new_account_name", .str "alice")] }
    (List.mem_cons_self _ _)
    "alice" rfl

/-! ### `process_multi` -/

theorem runBlocks_cons (ext : Externals) (vops : Nat → Option (VoteOps × CPOps))
    (sync : Bool) (st : MemState) (last : Nat) (b : Block) (rest : List Block) :
    runBlocks ext vops sync st last (b :: rest) =
      match _process ext vops sync st b with
      | .error e => (st, last, [], some e)
      | .ok (st', num, evs) =>
        let r := runBlocks ext vops sync st' num rest
        (r.1, r.2.1, evs ++ r.2.2.1, r.2.2.2) := rfl

theorem process_events_not_flush {ext : Externals} {vops : Nat → Option (VoteOps × CPOps)}
    {sync : Bool} {st : MemState} {block : Block} {st' : MemState} {num : Nat}
    {evs : List Ev}
    (h : _process ext vops sync st block = .ok (st', num, evs)) :
    ∀ ev ∈ evs, ev.isFlushOrCommit = false := by
  obtain ⟨rest, hevs, hrest, _⟩ := process_events h
  intro ev hev
  rw [hevs] at hev
  rcases List.mem_cons.mp hev with h1 | h1
  · rw [h1]; rfl
  · exact (hrest ev h1).1

theorem runBlocks_events_not_flush (ext : Externals)
    (vops : Nat → Option (VoteOps × CPOps)) (sync : Bool) :
    ∀ (blocks : List Block) (st : MemState) (last : Nat),
      ∀ ev ∈ (runBlocks ext vops sync st last blocks).2.2.1,
        ev.isFlushOrCommit = false := by
  intro blocks
  induction blocks with
  | nil => intro st last ev hev; exact absurd hev (List.not_mem_nil ev)
  | cons b rest ih =>
    intro st last ev hev
    rw [runBlocks_cons] at hev
    cases hp : _process ext vops sync st b with
    | error e => rw [hp] at hev; exact absurd hev (List.not_mem_nil ev)
    | ok tr =>
      obtain ⟨st2, num2, evs2⟩ := tr
      rw [hp] at hev
      dsimp only at hev
      rcases List.mem_append.mp hev with h1 | h1
      · exact process_events_not_flush hp ev h1
      · exact ih st2 num2 ev h1

/-- C2: if any per-block `_process` call raises, `process_multi`
re-raises after logging `last_num + 1` (the offending height, for a
contiguous batch); no domain flusher, no block-store flush and no
`COMMIT` occur, and the committed `hive_blocks` table — hence
`head_num()` — is unchanged. -/
theorem process_multi_error_atomic (ext : Externals)
    (vops : Nat → Option (VoteOps × CPOps)) (sync : Bool) (db : List BlockRecord)
    (st : MemState) (blocks : List Block) (e : String)
    (h : (process_multi ext vops sync db st blocks).err = some e) :
    (process_multi ext vops sync db st blocks).db = db ∧
    head_num (process_multi ext vops sync db st blocks).db = head_num db ∧
    ∃ evs last, (process_multi ext vops sync db st blocks).trace =
        Ev.startTrx :: evs ++ [Ev.logError (last + 1)] ∧
      ∀ ev ∈ evs, ev.isFlushOrCommit = false := by
  unfold process_multi at h ⊢
  dsimp only at h ⊢
  cases he : (runBlocks ext vops sync st 0 blocks).2.2.2 with
  | none =>
    rw [he] at h
    exact Option.noConfusion h
  | some e2 =>
    dsimp only
    exact ⟨rfl, rfl, (runBlocks ext vops sync st 0 blocks).2.2.1,
      (runBlocks ext vops sync st 0 blocks).2.1, rfl,
      runBlocks_events_not_flush ext vops sync blocks st 0⟩

/-- C2 witness: a batch whose single block has a non-hex `block_id`
raises in `_push`; the table and `head_num` are unchanged. -/
theorem process_multi_error_atomic_witness :
    (process_multi trivialExternals (fun _ => none) true
      [{ num := 5, hash := "00000005", prev := "00000004", txs := 0, ops := 0, date := "T5" }]
      { blocks_to_flush := [], ops_stats := [], head_block_date := none }
      [{ block_id := "zz", previous := "yy", timestamp := "TB", transactions := [] }]).db =
      [{ num := 5, hash := "00000005", prev := "00000004", txs := 0, ops := 0, date := "T5" }] ∧
    head_num (process_multi trivialExternals (fun _ => none) true
      [{ num := 5, hash := "00000005", prev := "00000004", txs := 0, ops := 0, date := "T5" }]
      { blocks_to_flush := [], ops_stats := [], head_block_date := none }
      [{ block_id := "zz", previous := "yy", timestamp := "TB", transactions := [] }]).db =
      head_num
        [{ num := 5, hash := "00000005", prev := "00000004", txs := 0, ops := 0, date := "T5" }] := by
  have h := process_multi_error_atomic trivialExternals (fun _ => none) true
    [{ num := 5, hash := "00000005", prev := "00000004", txs := 0, ops := 0, date := "T5" }]
    { blocks_to_flush := [], ops_stats := [], head_block_date := none }
    [{ block_id := "zz", previous := "yy", timestamp := "TB", transactions := [] }]
    "ValueError: invalid literal for int() with base 16" rfl
  exact ⟨h.1, h.2.1⟩

/-- C7: on success `process_multi` runs, after the per-block work and in
exactly this order, the post-data-cache, tags and votes flushes, the
block-store flush of the staged headers (which is what extends
`hive_blocks`), the non-transactional follow flush, and only then
`COMMIT`. -/
theorem process_multi_success_flush_order (ext : Externals)
    (vops : Nat → Option (VoteOps × CPOps)) (sync : Bool) (db : List BlockRecord)
    (st : MemState) (blocks : List Block)
    (h : (process_multi ext vops sync db st blocks).err = none) :
    ∃ evs rows, (process_multi ext vops sync db st blocks).trace =
        Ev.startTrx :: evs ++
          [Ev.flushPostData, Ev.flushTags, Ev.flushVotes, Ev.flushBlocks rows,
           Ev.flushFollow false, Ev.commit] ∧
      (∀ ev ∈ evs, ev.isFlushOrCommit = false) ∧
      (process_multi ext vops sync db st blocks).db = db ++ rows := by
  unfold process_multi at h ⊢
  dsimp only at h ⊢
  cases he : (runBlocks ext vops sync st 0 blocks).2.2.2 with
  | some e2 =>
    rw [he] at h
    exact Option.noConfusion h
  | none =>
    dsimp only
    exact ⟨(runBlocks ext vops sync st 0 blocks).2.2.1,
      (_flush_blocks (runBlocks ext vops sync st 0 blocks).1).1, rfl,
      runBlocks_events_not_flush ext vops sync blocks st 0, rfl⟩

/-- C7 witness: a successful one-block batch ends with the five flushes
and the commit, in order. -/
theorem process_multi_success_flush_order_witness :
    ∃ evs rows, (process_multi trivialExternals (fun _ => none) true []
        { blocks_to_flush := [], ops_stats := [], head_block_date := none }
        [{ block_id := "00000001", previous := "00000000", timestamp := "T1",
           transactions := [] }]).trace =
        Ev.startTrx :: evs ++
          [Ev.flushPostData, Ev.flushTags, Ev.flushVotes, Ev.flushBlocks rows,
           Ev.flushFollow false, Ev.commit] ∧
      (∀ ev ∈ evs, ev.isFlushOrCommit = false) ∧
      (process_multi trivialExternals (fun _ => none) true []
        { blocks_to_flush := [], ops_stats := [], head_block_date := none }
        [{ block_id := "00000001", previous := "00000000", timestamp := "T1",
           transactions := [] }]).db = [] ++ rows :=
  process_multi_success_flush_order trivialExternals (fun _ => none) true []
    { blocks_to_flush := [], ops_stats := [], head_block_date := none }
    [{ block_id := "00000001", previous := "00000000", timestamp := "T1",
       transactions := [] }] rfl

end Hivemind
